import Mathlib

/-!
# mybot2: the rule loop, the condition evaluator and the action chain

A shallow embedding of `main.go`.

* A Go `error` result is an `Option ε`: `none` is `nil`, `some e` a non-nil error.
* A Go pointer that may be `nil` is an `Option`.
* A call that can panic returns an `Outcome`, either `ret v` (normal return) or
  `panic p` (the goroutine unwinds, nothing recovers it).
* Effects are recorded in a `World`: the list of calls made so far to the libraries
  outside the program (govaluate, the Twitter client, the Slack client) and of the
  sends on `errChan`.  A library call answers as a function of the calls made
  before it, so every deterministic behaviour of a provider is one `Context`.
  Library calls are taken to return; a send on `errChan` is taken to complete.
-/

namespace Mybot

/-! ## Data -/

/-- The record `SourceData` that flows through the pipeline (`Type_` is the Go
field `Type`). -/
structure SourceData where
  Type_ : String
  ID : String
  Text : String
  URL : String
  Links : List String
  Images : List String
  deriving DecidableEq, Repr

/-- The ways a goroutine of this program panics. -/
inductive Panic where
  /-- A field read through a nil pointer, or a method call on a nil interface. -/
  | nilPointerDereference
  /-- The failed type assertion `result.(bool)`. -/
  | interfaceConversion
  /-- An explicit `panic(msg)`. -/
  | explicit (msg : String)
  deriving DecidableEq, Repr

/-- Outcome of a Go call: the returned value, or a panic. -/
inductive Outcome (α : Type) where
  | ret (a : α)
  | panic (p : Panic)
  deriving DecidableEq, Repr

/-- One observable step: a call into a library, or a send on `errChan`. -/
inductive Event (ε : Type) where
  | NewEvaluableExpressionWithFunctions (condition : String)
  | Evaluate (condition : String) (data : SourceData)
  | PostTweet (text : String)
  | RetrieveSingleUserWithUserName (userName : String)
  | PostRetweet (userID : String) (tweetID : String)
  | PostUsersLikingTweet (userID : String) (tweetID : String)
  | PostMessage (channel : String) (text : String)
  | errChanSend (err : ε)
  deriving DecidableEq, Repr

/-- The calls and sends made so far, oldest first. -/
abbrev World (ε : Type) := List (Event ε)

/-- The `gotwtr.User` fields the program reads. -/
structure User where
  ID : String
  deriving DecidableEq, Repr

/-- The `gotwtr.UserResponse` fields the program reads; `User` is a pointer. -/
structure UserResponse where
  User : Option User
  deriving DecidableEq, Repr

/-- The methods of `*gotwtr.Client` the program calls. Each answers from the
history of calls; the results the program discards are left out. -/
structure TwitterClient (ε : Type) where
  PostTweet : World ε → String → Option ε
  RetrieveSingleUserWithUserName : World ε → String → Except ε UserResponse
  PostRetweet : World ε → String → String → Option ε
  PostUsersLikingTweet : World ε → String → String → Option ε

/-- The method of `*slack.Client` the program calls, with the text of the one
message option it passes. -/
structure SlackClient (ε : Type) where
  PostMessage : World ε → String → String → Option ε

/-- The struct `Context`; the `context.Context` field is not read by the code modelled. -/
structure Context (ε : Type) where
  twitterClient : TwitterClient ε
  slackClient : SlackClient ε

/-- A value returned by `Evaluate`: a Go `bool`, or a value of another dynamic type. -/
inductive Value (ν : Type) where
  | bool (b : Bool)
  | other (v : ν)
  deriving DecidableEq, Repr

/-- The two govaluate entry points, with the empty map `expressionFunctions`
already supplied; `χ` is the type of compiled expressions. Both are pure. -/
structure Govaluate (ε χ ν : Type) where
  NewEvaluableExpressionWithFunctions : String → Except ε χ
  Evaluate : χ → SourceData → Except ε (Value ν)

/-- The interface `IAction`, as a non-nil interface value. -/
structure IAction (ε : Type) where
  Do : Context ε → SourceData → World ε → Outcome (Option ε) × World ε

structure Filter where
  Condition : String
  deriving DecidableEq, Repr

structure TwitterTweetAction where
  Enabled : Bool
  deriving DecidableEq, Repr

structure TwitterRetweetAction where
  Enabled : Bool
  deriving DecidableEq, Repr

structure TwitterLikeAction where
  Enabled : Bool
  deriving DecidableEq, Repr

structure TwitterAction where
  Tweet : Option TwitterTweetAction
  Retweet : Option TwitterRetweetAction
  Like : Option TwitterLikeAction
  deriving DecidableEq, Repr

structure SlackMessageAction where
  Channels : List String
  deriving DecidableEq, Repr

structure SlackPinAction where
  Enabled : Bool
  deriving DecidableEq, Repr

structure SlackReactionAction where
  Reactions : List String
  deriving DecidableEq, Repr

structure SlackAction where
  Message : Option SlackMessageAction
  Pin : Option SlackPinAction
  Reaction : Option SlackReactionAction
  deriving DecidableEq, Repr

structure Action where
  Twitter : Option TwitterAction
  Slack : Option SlackAction
  deriving DecidableEq, Repr

structure Process where
  Filter : Filter
  Action : Action
  deriving DecidableEq, Repr

section Program

variable {ε χ ν : Type}

/-! ## The condition evaluator -/

/-- The method `(*Filter).Match`: compile the condition, evaluate it on `data`,
assert that the result is a `bool`. The receiver is never nil (it is `&proc.Filter`). -/
def Filter.Match (g : Govaluate ε χ ν) (f : Filter) (data : SourceData) (w : World ε) :
    Outcome (Bool × Option ε) × World ε :=
  let w1 := w ++ [Event.NewEvaluableExpressionWithFunctions f.Condition]
  match g.NewEvaluableExpressionWithFunctions f.Condition with
  | .error err => (.ret (false, some err), w1)
  | .ok exp =>
    let w2 := w1 ++ [Event.Evaluate f.Condition data]
    match g.Evaluate exp data with
    | .error err => (.ret (false, some err), w2)
    | .ok (.bool b) => (.ret (b, none), w2)
    | .ok (.other _) => (.panic .interfaceConversion, w2)

/-! ## The action chain -/

/-- The function `doActions`: a `nil` interface in the slice panics at `action.Do`. -/
def doActions (actions : List (Option (IAction ε))) (ctx : Context ε) (data : SourceData)
    (w : World ε) : Outcome (Option ε) × World ε :=
  match actions with
  | [] => (.ret none, w)
  | none :: _ => (.panic .nilPointerDereference, w)
  | some action :: rest =>
    match action.Do ctx data w with
    | (.ret (some err), w1) => (.ret (some err), w1)
    | (.ret none, w1) => doActions rest ctx data w1
    | (.panic p, w1) => (.panic p, w1)

/-- The method `(*TwitterTweetAction).Do`. -/
def TwitterTweetAction.Do (a : Option TwitterTweetAction) (ctx : Context ε)
    (data : SourceData) (w : World ε) : Outcome (Option ε) × World ε :=
  match a with
  | none => (.panic .nilPointerDereference, w)
  | some a =>
    if !a.Enabled then (.ret none, w)
    else
      let w1 := w ++ [Event.PostTweet data.Text]
      match ctx.twitterClient.PostTweet w data.Text with
      | some err => (.ret (some err), w1)
      | none => (.ret none, w1)

/-- The method `(*TwitterRetweetAction).Do`. -/
def TwitterRetweetAction.Do (a : Option TwitterRetweetAction) (ctx : Context ε)
    (data : SourceData) (w : World ε) : Outcome (Option ε) × World ε :=
  match a with
  | none => (.panic .nilPointerDereference, w)
  | some a =>
    if !a.Enabled then (.ret none, w)
    else
      let w1 := w ++ [Event.RetrieveSingleUserWithUserName "me"]
      match ctx.twitterClient.RetrieveSingleUserWithUserName w "me" with
      | .error err => (.ret (some err), w1)
      | .ok userResp =>
        match userResp.User with
        | none => (.panic .nilPointerDereference, w1)
        | some user =>
          let userID := user.ID
          let w2 := w1 ++ [Event.PostRetweet userID data.ID]
          match ctx.twitterClient.PostRetweet w1 userID data.ID with
          | some err => (.ret (some err), w2)
          | none => (.ret none, w2)

/-- The method `(*TwitterLikeAction).Do`. -/
def TwitterLikeAction.Do (a : Option TwitterLikeAction) (ctx : Context ε)
    (data : SourceData) (w : World ε) : Outcome (Option ε) × World ε :=
  match a with
  | none => (.panic .nilPointerDereference, w)
  | some a =>
    if !a.Enabled then (.ret none, w)
    else
      let w1 := w ++ [Event.RetrieveSingleUserWithUserName "me"]
      match ctx.twitterClient.RetrieveSingleUserWithUserName w "me" with
      | .error err => (.ret (some err), w1)
      | .ok userResp =>
        match userResp.User with
        | none => (.panic .nilPointerDereference, w1)
        | some user =>
          let userID := user.ID
          let w2 := w1 ++ [Event.PostUsersLikingTweet userID data.ID]
          match ctx.twitterClient.PostUsersLikingTweet w1 userID data.ID with
          | some err => (.ret (some err), w2)
          | none => (.ret none, w2)

/-- The method `(*TwitterAction).Do`; reading `a.Tweet` through a nil receiver panics. -/
def TwitterAction.Do (a : Option TwitterAction) (ctx : Context ε) (data : SourceData)
    (w : World ε) : Outcome (Option ε) × World ε :=
  match a with
  | none => (.panic .nilPointerDereference, w)
  | some a =>
    match doActions [some ⟨TwitterTweetAction.Do a.Tweet⟩,
        some ⟨TwitterRetweetAction.Do a.Retweet⟩,
        some ⟨TwitterLikeAction.Do a.Like⟩] ctx data w with
    | (.ret (some err), w1) => (.ret (some err), w1)
    | (.ret none, w1) => (.ret none, w1)
    | (.panic p, w1) => (.panic p, w1)

/-- The loop of `(*SlackMessageAction).Do` over the channels. -/
def SlackMessageAction.postAll (channels : List String) (ctx : Context ε)
    (data : SourceData) (w : World ε) : Outcome (Option ε) × World ε :=
  match channels with
  | [] => (.ret none, w)
  | ch :: rest =>
    let w1 := w ++ [Event.PostMessage ch data.URL]
    match ctx.slackClient.PostMessage w ch data.URL with
    | some err => (.ret (some err), w1)
    | none => SlackMessageAction.postAll rest ctx data w1

/-- The method `(*SlackMessageAction).Do`. -/
def SlackMessageAction.Do (a : Option SlackMessageAction) (ctx : Context ε)
    (data : SourceData) (w : World ε) : Outcome (Option ε) × World ε :=
  match a with
  | none => (.panic .nilPointerDereference, w)
  | some a => SlackMessageAction.postAll a.Channels ctx data w

/-- The method `(*SlackPinAction).Do`. -/
def SlackPinAction.Do (a : Option SlackPinAction) (_ctx : Context ε)
    (_data : SourceData) (w : World ε) : Outcome (Option ε) × World ε :=
  match a with
  | none => (.panic .nilPointerDereference, w)
  | some a =>
    if !a.Enabled then (.ret none, w)
    else (.panic (.explicit "not implemented"), w)

/-- The method `(*SlackReactionAction).Do`: the body does not read the receiver. -/
def SlackReactionAction.Do (_a : Option SlackReactionAction) (_ctx : Context ε)
    (_data : SourceData) (w : World ε) : Outcome (Option ε) × World ε :=
  (.panic (.explicit "not implemented"), w)

/-- The method `(*SlackAction).Do`. -/
def SlackAction.Do (a : Option SlackAction) (ctx : Context ε) (data : SourceData)
    (w : World ε) : Outcome (Option ε) × World ε :=
  match a with
  | none => (.panic .nilPointerDereference, w)
  | some a =>
    match doActions [some ⟨SlackMessageAction.Do a.Message⟩,
        some ⟨SlackPinAction.Do a.Pin⟩,
        some ⟨SlackReactionAction.Do a.Reaction⟩] ctx data w with
    | (.ret (some err), w1) => (.ret (some err), w1)
    | (.ret none, w1) => (.ret none, w1)
    | (.panic p, w1) => (.panic p, w1)

/-- The method `(*Action).Do`. The receiver is never nil (it is `&proc.Action`). -/
def Action.Do (a : Action) (ctx : Context ε) (data : SourceData) (w : World ε) :
    Outcome (Option ε) × World ε :=
  match doActions [some ⟨TwitterAction.Do a.Twitter⟩,
      some ⟨SlackAction.Do a.Slack⟩] ctx data w with
  | (.ret (some err), w1) => (.ret (some err), w1)
  | (.ret none, w1) => (.ret none, w1)
  | (.panic p, w1) => (.panic p, w1)

/-! ## The dispatcher -/

/-- The statement `if err != nil { errChan <- err }`, the send recorded in the world. -/
def sendErr (err : Option ε) (w : World ε) : World ε :=
  match err with
  | some e => w ++ [Event.errChanSend e]
  | none => w

/-- The body of `case out, ok := <-outChan` in `main`, for a received event: the
loop over `config.Process`. A send on `errChan` is recorded in the world; the
value returned by `proc.Action.Do` is dropped, as in the source. -/
def handleEvent (g : Govaluate ε χ ν) (ctx : Context ε) (procs : List Process)
    (out : SourceData) (w : World ε) : Outcome Unit × World ε :=
  match procs with
  | [] => (.ret (), w)
  | proc :: rest =>
    match proc.Filter.Match g out w with
    | (.panic p, w1) => (.panic p, w1)
    | (.ret (matched, err), w1) =>
      let w2 := sendErr err w1
      if matched then
        match proc.Action.Do ctx out w2 with
        | (.panic p, w3) => (.panic p, w3)
        | (.ret _, w3) => handleEvent g ctx rest out w3
      else handleEvent g ctx rest out w2

/-! ## Vocabulary of the statements -/

/-- The relation `RunsOk ctx data actions w w1`: started in `w`, every entry of
`actions` is a non-nil interface whose `Do`, run once and in list order on the
world left by the entry before it, returns nil; `w1` is the world left by the last. -/
inductive RunsOk (ctx : Context ε) (data : SourceData) :
    List (Option (IAction ε)) → World ε → World ε → Prop where
  | nil (w : World ε) : RunsOk ctx data [] w w
  | cons (a : IAction ε) (rest : List (Option (IAction ε))) (w w1 w2 : World ε) :
      a.Do ctx data w = (.ret none, w1) → RunsOk ctx data rest w1 w2 →
      RunsOk ctx data (some a :: rest) w w2

/-- The condition compiled by an event, if the event is a compile call. -/
def compiledCondition : Event ε → Option String
  | .NewEvaluableExpressionWithFunctions c => some c
  | _ => none

/-- The conditions compiled so far, oldest first. -/
def conds (w : World ε) : List String := w.filterMap compiledCondition

/-- An error `e` is a provider-call error of `ctx` when some call of a Twitter
leaf or of the Slack message leaf answers `e` after some history. -/
def ProviderError (ctx : Context ε) (e : ε) : Prop :=
  ∃ h : World ε,
    (∃ t, ctx.twitterClient.PostTweet h t = some e) ∨
    (∃ n, ctx.twitterClient.RetrieveSingleUserWithUserName h n = .error e) ∨
    (∃ u t, ctx.twitterClient.PostRetweet h u t = some e) ∨
    (∃ u t, ctx.twitterClient.PostUsersLikingTweet h u t = some e) ∨
    (∃ c t, ctx.slackClient.PostMessage h c t = some e)

/-- The outcomes that end an action chain: a returned provider-call error, a nil
dereference, or the `not implemented` panic. -/
def Stops (ctx : Context ε) (r : Outcome (Option ε)) : Prop :=
  (∃ e, r = .ret (some e) ∧ ProviderError ctx e) ∨
  r = .panic .nilPointerDereference ∨
  r = .panic (.explicit "not implemented")

end Program

/-! ## Concrete inputs -/

/-- An event from the Twitter stream. -/
def sampleData : SourceData :=
  { Type_ := "Twitter", ID := "42", Text := "we launch today",
    URL := "https://twitter.com/7/status/42", Links := [], Images := [] }

/-- A provider whose every call succeeds; the identity lookup answers user `7`. -/
def okContext : Context String :=
  { twitterClient :=
      { PostTweet := fun _ _ => none
        RetrieveSingleUserWithUserName := fun _ _ => .ok ⟨some ⟨"7"⟩⟩
        PostRetweet := fun _ _ _ => none
        PostUsersLikingTweet := fun _ _ _ => none }
    slackClient := { PostMessage := fun _ _ _ => none } }

/-- A child action that posts the tweet `name` and returns nil. -/
def okChild (name : String) : IAction String :=
  ⟨fun _ _ w => (.ret none, w ++ [Event.PostTweet name])⟩

/-- A child action that posts the tweet `name` and returns the error `err`. -/
def failChild (name err : String) : IAction String :=
  ⟨fun _ _ w => (.ret (some err), w ++ [Event.PostTweet name])⟩

/-- The answers of govaluate on the six conditions used below; the compiled
expression is the condition text. `(1 + 2` does not compile (the parentheses
are unbalanced); `foo` compiles and fails to evaluate (no parameter of that
name is bound); `1 + 1` evaluates to the number 2; `true`, `false` and `1 == 1`
evaluate to booleans. A condition outside the table is not used. -/
def sampleGovaluate : Govaluate String String String :=
  { NewEvaluableExpressionWithFunctions := fun c =>
      if c = "true" ∨ c = "false" ∨ c = "1 == 1" ∨ c = "1 + 1" ∨ c = "foo" then .ok c
      else .error "Unbalanced parenthesis"
    Evaluate := fun exp _ =>
      if exp = "true" then .ok (.bool true)
      else if exp = "false" then .ok (.bool false)
      else if exp = "1 == 1" then .ok (.bool true)
      else if exp = "1 + 1" then .ok (.other "2")
      else .error "No parameter \x27foo\x27 found." }

/-- A provider whose identity lookup fails; every other call succeeds. -/
def lookupFailContext : Context String :=
  { okContext with
    twitterClient :=
      { okContext.twitterClient with
        RetrieveSingleUserWithUserName := fun _ _ => .error "lookup failed" } }

/-- A provider that rejects every tweet, retweet and like. -/
def rejectContext : Context String :=
  { okContext with
    twitterClient :=
      { okContext.twitterClient with
        PostTweet := fun _ _ => some "tweet rejected"
        PostRetweet := fun _ _ _ => some "retweet rejected"
        PostUsersLikingTweet := fun _ _ _ => some "like rejected" } }

/-- A Slack workspace in which the channel `dev` does not exist. -/
def noDevContext : Context String :=
  { okContext with
    slackClient :=
      { PostMessage := fun _ ch _ => if ch = "dev" then some "channel_not_found" else none } }

/-- An action tree with every node present and disabled, the reaction leaf absent. -/
def disabledAction : Action :=
  { Twitter := some { Tweet := some ⟨false⟩, Retweet := some ⟨false⟩, Like := some ⟨false⟩ }
    Slack := some { Message := some ⟨[]⟩, Pin := some ⟨false⟩, Reaction := none } }

/-- Whether an event is an effectful provider operation; the identity lookup is a read. -/
def Event.isEffectful {ε : Type} : Event ε → Bool
  | .PostTweet _ => true
  | .PostRetweet _ _ => true
  | .PostUsersLikingTweet _ _ => true
  | .PostMessage _ _ => true
  | _ => false

/-- An action tree whose only enabled leaf is the tweet leaf. -/
def tweetAction : Action :=
  { Twitter := some { Tweet := some ⟨true⟩, Retweet := some ⟨false⟩, Like := some ⟨false⟩ }
    Slack := some { Message := some ⟨[]⟩, Pin := some ⟨false⟩, Reaction := some ⟨[]⟩ } }

/-- Three rules: the first does not match and its chain would panic if it were
run; the second and the third match, and each chain posts a tweet. -/
def threeRules : List Process :=
  [⟨⟨"false"⟩, disabledAction⟩, ⟨⟨"true"⟩, tweetAction⟩, ⟨⟨"1 == 1"⟩, tweetAction⟩]

section Theorems

variable {ε χ ν : Type}

/-! ## C1: `doActions` -/

theorem doActions_append_of_runsOk (ctx : Context ε) (data : SourceData)
    (pre rest : List (Option (IAction ε))) (w w1 : World ε)
    (h : RunsOk ctx data pre w w1) :
    doActions (pre ++ rest) ctx data w = doActions rest ctx data w1 := by
  induction h with
  | nil w => rfl
  | cons a tl w w1 w2 ha _ ih =>
    rw [List.cons_append, doActions, ha]
    exact ih

/-- C1: `doActions` runs the children in list order and stops at the first one
that returns a non-nil error, returning exactly that error and the world that
child left, so that no later child is run; when every child returns nil it runs
all of them and returns nil. Both directions hold: these are the only ways
`doActions` returns. -/
theorem doActions_stops_at_first_error (actions : List (Option (IAction ε)))
    (ctx : Context ε) (data : SourceData) (w : World ε) :
    (∀ pre a post e w1 w2, actions = pre ++ some a :: post →
        RunsOk ctx data pre w w1 → a.Do ctx data w1 = (.ret (some e), w2) →
        doActions actions ctx data w = (.ret (some e), w2)) ∧
    (∀ w1, RunsOk ctx data actions w w1 →
        doActions actions ctx data w = (.ret none, w1)) ∧
    (∀ e w2, doActions actions ctx data w = (.ret (some e), w2) →
        ∃ pre a post w1, actions = pre ++ some a :: post ∧
          RunsOk ctx data pre w w1 ∧ a.Do ctx data w1 = (.ret (some e), w2)) ∧
    (∀ w1, doActions actions ctx data w = (.ret none, w1) →
        RunsOk ctx data actions w w1) := by
  refine ⟨?_, ?_, ?_, ?_⟩
  · intro pre a post e w1 w2 hsplit hpre ha
    subst hsplit
    rw [doActions_append_of_runsOk ctx data pre _ w w1 hpre, doActions, ha]
  · intro w1 h
    have := doActions_append_of_runsOk ctx data actions [] w w1 h
    rw [List.append_nil] at this
    rw [this, doActions]
  · induction actions generalizing w with
    | nil => intro e w2 h; simp [doActions] at h
    | cons hd tl ih =>
      intro e w2 h
      cases hd with
      | none => simp [doActions] at h
      | some a =>
        rw [doActions] at h
        rcases hdo : a.Do ctx data w with ⟨r, wa⟩
        rw [hdo] at h
        rcases r with (_ | err) | p
        · obtain ⟨pre, b, post, w1, hs, hr, hb⟩ := ih wa e w2 h
          exact ⟨some a :: pre, b, post, w1, by rw [hs]; rfl,
            RunsOk.cons a pre w wa w1 hdo hr, hb⟩
        · simp only [Prod.mk.injEq, Outcome.ret.injEq, Option.some.injEq] at h
          obtain ⟨rfl, rfl⟩ := h
          exact ⟨[], a, tl, w, rfl, RunsOk.nil w, hdo⟩
        · simp at h
  · induction actions generalizing w with
    | nil =>
      intro w1 h
      simp only [doActions, Prod.mk.injEq, true_and] at h
      subst h
      exact RunsOk.nil w
    | cons hd tl ih =>
      intro w1 h
      cases hd with
      | none => simp [doActions] at h
      | some a =>
        rw [doActions] at h
        rcases hdo : a.Do ctx data w with ⟨r, wa⟩
        rw [hdo] at h
        rcases r with (_ | err) | p
        · exact RunsOk.cons a tl w wa w1 hdo (ih wa w1 h)
        · simp at h
        · simp at h

/-- C1 at a chain `[A0, A1 (fails), A2]`: `A2` is not run and the error of `A1`
is returned. -/
theorem doActions_stops_at_first_error_witness :
    doActions [some (okChild "A0"), some (failChild "A1" "boom"), some (okChild "A2")]
        okContext sampleData []
      = (.ret (some "boom"), [Event.PostTweet "A0", Event.PostTweet "A1"]) :=
  (doActions_stops_at_first_error _ okContext sampleData []).1
    [some (okChild "A0")] (failChild "A1" "boom") [some (okChild "A2")] "boom"
    [Event.PostTweet "A0"] [Event.PostTweet "A0", Event.PostTweet "A1"] rfl
    (RunsOk.cons (okChild "A0") [] [] _ _ rfl (RunsOk.nil _)) rfl

/-! ## C7, C6: `Filter.Match` -/

/-- C7: when compiling the condition fails with `e`, `Match` returns `(false, e)`
after the compile call alone, so the expression is never evaluated; when
compiling succeeds and evaluating fails with `e`, `Match` returns `(false, e)`;
in neither case does it return a nil error. -/
theorem Match_returns_compile_or_evaluation_error (g : Govaluate ε χ ν) (f : Filter)
    (data : SourceData) (w : World ε) :
    (∀ e, g.NewEvaluableExpressionWithFunctions f.Condition = .error e →
        f.Match g data w
          = (.ret (false, some e),
              w ++ [Event.NewEvaluableExpressionWithFunctions f.Condition])) ∧
    (∀ exp e, g.NewEvaluableExpressionWithFunctions f.Condition = .ok exp →
        g.Evaluate exp data = .error e →
        f.Match g data w
          = (.ret (false, some e),
              w ++ [Event.NewEvaluableExpressionWithFunctions f.Condition]
                ++ [Event.Evaluate f.Condition data])) ∧
    (((∃ e, g.NewEvaluableExpressionWithFunctions f.Condition = .error e) ∨
        (∃ exp e, g.NewEvaluableExpressionWithFunctions f.Condition = .ok exp ∧
          g.Evaluate exp data = .error e)) →
        ∀ v, (f.Match g data w).1 ≠ .ret (v, none)) := by
  refine ⟨?_, ?_, ?_⟩
  · intro e hc
    simp [Filter.Match, hc]
  · intro exp e hc he
    simp [Filter.Match, hc, he]
  · rintro (⟨e, hc⟩ | ⟨exp, e, hc, he⟩) v
    · simp [Filter.Match, hc]
    · simp [Filter.Match, hc, he]

/-- C7 at the condition `(1 + 2`, which does not compile, and at `foo`, which
compiles and fails to evaluate. -/
theorem Match_returns_compile_or_evaluation_error_witness :
    Filter.Match sampleGovaluate ⟨"(1 + 2"⟩ sampleData []
        = (.ret (false, some "Unbalanced parenthesis"),
            [] ++ [Event.NewEvaluableExpressionWithFunctions "(1 + 2"]) ∧
    Filter.Match sampleGovaluate ⟨"foo"⟩ sampleData []
        = (.ret (false, some "No parameter \x27foo\x27 found."),
            [] ++ [Event.NewEvaluableExpressionWithFunctions "foo"]
              ++ [Event.Evaluate "foo" sampleData]) :=
  ⟨(Match_returns_compile_or_evaluation_error sampleGovaluate ⟨"(1 + 2"⟩
      sampleData []).1 "Unbalanced parenthesis" rfl,
   (Match_returns_compile_or_evaluation_error sampleGovaluate ⟨"foo"⟩
      sampleData []).2.1 "foo" "No parameter \x27foo\x27 found." rfl rfl⟩

theorem Match_panics_of_nonBoolean (g : Govaluate ε χ ν) (f : Filter)
    (data : SourceData) (w : World ε) (exp : χ) (v : ν)
    (hc : g.NewEvaluableExpressionWithFunctions f.Condition = .ok exp)
    (he : g.Evaluate exp data = .ok (.other v)) :
    f.Match g data w
      = (.panic .interfaceConversion,
          w ++ [Event.NewEvaluableExpressionWithFunctions f.Condition]
            ++ [Event.Evaluate f.Condition data]) := by
  simp [Filter.Match, hc, he]

/-- C6 on the code: the condition `1 + 1` compiles and evaluates to a number, and
`Match` panics at the type assertion instead of returning `(false, err)`. -/
theorem Match_nonBoolean_panics :
    Filter.Match sampleGovaluate ⟨"1 + 1"⟩ sampleData []
        = (.panic .interfaceConversion,
            [Event.NewEvaluableExpressionWithFunctions "1 + 1",
             Event.Evaluate "1 + 1" sampleData]) ∧
    ¬ ∃ e : String, (Filter.Match sampleGovaluate ⟨"1 + 1"⟩ sampleData []).1
        = .ret (false, some e) := by
  constructor
  · decide
  · rintro ⟨e, he⟩
    have h : (Filter.Match sampleGovaluate ⟨"1 + 1"⟩ sampleData []).1
        = .panic .interfaceConversion := by decide
    rw [h] at he
    cases he

/-! ## C3: the placeholder leaves -/

/-- C3 fails on the code: the reaction leaf returns no error value, it panics. -/
theorem reaction_leaf_panics :
    SlackReactionAction.Do (some ⟨["eyes"]⟩) okContext sampleData []
        = (.panic (.explicit "not implemented"), []) ∧
    ¬ ∃ e : String,
        (SlackReactionAction.Do (some ⟨["eyes"]⟩) okContext sampleData []).1
          = .ret (some e) := by
  constructor
  · rfl
  · rintro ⟨e, he⟩
    cases he

/-- C3 as amended: the reaction leaf (present or absent) and the pin leaf with
`Enabled = true` panic with the message `not implemented`, without any provider
call; this outcome differs from every returned error, hence from a provider-call
failure. -/
theorem placeholder_leaves_panic_not_implemented (a : Option SlackReactionAction)
    (ctx : Context ε) (data : SourceData) (w : World ε) :
    SlackReactionAction.Do a ctx data w = (.panic (.explicit "not implemented"), w) ∧
    SlackPinAction.Do (some ⟨true⟩) ctx data w
      = (.panic (.explicit "not implemented"), w) ∧
    ∀ e : ε, (SlackReactionAction.Do a ctx data w).1 ≠ .ret (some e) ∧
      (SlackPinAction.Do (some ⟨true⟩) ctx data w).1 ≠ .ret (some e) := by
  refine ⟨rfl, rfl, fun e => ⟨?_, ?_⟩⟩ <;> intro h <;> cases h

/-! ## C2: disabled nodes -/

/-- C2 on the code: with every node present and disabled and the reaction leaf
absent, `Action.Do` makes no provider call but does not return nil, it panics
when `doActions` calls `Do` on the absent reaction leaf; with both provider
branches absent it does not return nil either, it panics on the read of
`a.Tweet` through the nil Twitter branch. -/
theorem disabled_action_panics :
    Action.Do disabledAction okContext sampleData []
        = (.panic (.explicit "not implemented"), []) ∧
    (Action.Do disabledAction okContext sampleData []).1 ≠ .ret none ∧
    Action.Do ⟨none, none⟩ okContext sampleData []
        = (.panic .nilPointerDereference, []) ∧
    (Action.Do ⟨none, none⟩ okContext sampleData []).1 ≠ .ret none := by
  refine ⟨rfl, ?_, rfl, ?_⟩ <;> intro h <;> cases h

/-- A disabled leaf (tweet, retweet, like or pin with `Enabled = false`, the
message leaf with no channel) returns nil and makes no provider call, and so
does the Twitter branch whose three leaves are present and disabled. -/
theorem disabled_leaves_return_nil (ctx : Context ε) (data : SourceData) (w : World ε) :
    TwitterTweetAction.Do (some ⟨false⟩) ctx data w = (.ret none, w) ∧
    TwitterRetweetAction.Do (some ⟨false⟩) ctx data w = (.ret none, w) ∧
    TwitterLikeAction.Do (some ⟨false⟩) ctx data w = (.ret none, w) ∧
    SlackPinAction.Do (some ⟨false⟩) ctx data w = (.ret none, w) ∧
    SlackMessageAction.Do (some ⟨[]⟩) ctx data w = (.ret none, w) ∧
    TwitterAction.Do (some ⟨some ⟨false⟩, some ⟨false⟩, some ⟨false⟩⟩) ctx data w
      = (.ret none, w) :=
  ⟨rfl, rfl, rfl, rfl, rfl, rfl⟩

/-- Every action tree whose nodes are each absent or disabled (the reaction leaf,
which has no disabled state, absent): `Action.Do` makes no provider call, and it
panics instead of returning nil. -/
theorem absent_or_disabled_action_panics (a : Action) (ctx : Context ε)
    (data : SourceData) (w : World ε)
    (hT : ∀ t, a.Twitter = some t →
      (∀ x, t.Tweet = some x → x.Enabled = false) ∧
      (∀ x, t.Retweet = some x → x.Enabled = false) ∧
      (∀ x, t.Like = some x → x.Enabled = false))
    (hS : ∀ s, a.Slack = some s →
      (∀ x, s.Message = some x → x.Channels = []) ∧
      (∀ x, s.Pin = some x → x.Enabled = false) ∧
      s.Reaction = none) :
    (Action.Do a ctx data w).2 = w ∧ ∃ q, (Action.Do a ctx data w).1 = .panic q := by
  obtain ⟨tw, sl⟩ := a
  rcases tw with _ | ⟨t, r, l⟩
  · exact ⟨rfl, _, rfl⟩
  · obtain ⟨h1, h2, h3⟩ := hT _ rfl
    rcases t with _ | ⟨⟨et⟩⟩
    · exact ⟨rfl, _, rfl⟩
    · obtain rfl : et = false := h1 _ rfl
      rcases r with _ | ⟨⟨er⟩⟩
      · exact ⟨rfl, _, rfl⟩
      · obtain rfl : er = false := h2 _ rfl
        rcases l with _ | ⟨⟨el⟩⟩
        · exact ⟨rfl, _, rfl⟩
        · obtain rfl : el = false := h3 _ rfl
          rcases sl with _ | ⟨m, pn, re⟩
          · exact ⟨rfl, _, rfl⟩
          · obtain ⟨h4, h5, h6⟩ := hS _ rfl
            simp only at h6
            subst h6
            rcases m with _ | ⟨⟨cs⟩⟩
            · exact ⟨rfl, _, rfl⟩
            · obtain rfl : cs = [] := h4 _ rfl
              rcases pn with _ | ⟨⟨ep⟩⟩
              · exact ⟨rfl, _, rfl⟩
              · obtain rfl : ep = false := h5 _ rfl
                exact ⟨rfl, _, rfl⟩

/-! ## C8: the message leaf -/

theorem postAll_append_of_posted (ctx : Context ε) (data : SourceData)
    (pre rest : List String) (w : World ε)
    (h : ∀ p1 d p2, pre = p1 ++ d :: p2 →
      ctx.slackClient.PostMessage (w ++ p1.map (Event.PostMessage · data.URL)) d data.URL
        = none) :
    SlackMessageAction.postAll (pre ++ rest) ctx data w
      = SlackMessageAction.postAll rest ctx data
          (w ++ pre.map (Event.PostMessage · data.URL)) := by
  induction pre generalizing w with
  | nil => simp
  | cons c tl ih =>
    have hc : ctx.slackClient.PostMessage w c data.URL = none := by
      simpa using h [] c tl rfl
    rw [List.cons_append, SlackMessageAction.postAll]
    simp only [hc]
    rw [ih (w ++ [Event.PostMessage c data.URL])]
    · simp
    · intro p1 d p2 hs
      have := h (c :: p1) d p2 (by rw [hs]; rfl)
      simpa using this

theorem postAll_calls_initial_segment (cs : List String) (ctx : Context ε)
    (data : SourceData) (w : World ε) :
    ∃ k, k ≤ cs.length ∧
      (SlackMessageAction.postAll cs ctx data w).2
        = w ++ (cs.take k).map (Event.PostMessage · data.URL) ∧
      ((SlackMessageAction.postAll cs ctx data w).1 = .ret none → k = cs.length) := by
  induction cs generalizing w with
  | nil => exact ⟨0, le_refl _, by simp [SlackMessageAction.postAll], fun _ => rfl⟩
  | cons c tl ih =>
    rw [SlackMessageAction.postAll]
    rcases ctx.slackClient.PostMessage w c data.URL with _ | e
    · obtain ⟨k, hk, hw, hr⟩ := ih (w ++ [Event.PostMessage c data.URL])
      refine ⟨k + 1, by simpa using hk, ?_, ?_⟩
      · simp only [hw]
        simp
      · intro h
        simp only at h
        simp [hr h]
    · refine ⟨1, by simp, by simp, ?_⟩
      intro h
      cases h

/-- C8: the message leaf posts to the channels in configured order, each call
carrying `data.URL` as text. If the call for channel `c` is the first to fail,
with error `e`, the calls made are those for the channels up to and including
`c` and the result is `e`; if no call fails, a call is made for every channel
and the result is nil. With the single channel `ops`, exactly one call is made,
to `ops` with `data.URL`, and its outcome is the result. In every case the calls
made are those for an initial segment of the channel list, the whole list when
the result is nil. -/
theorem SlackMessageAction_posts_until_first_failure (cs : List String)
    (ctx : Context ε) (data : SourceData) (w : World ε) :
    (∀ pre c post e, cs = pre ++ c :: post →
        (∀ p1 d p2, pre = p1 ++ d :: p2 →
          ctx.slackClient.PostMessage (w ++ p1.map (Event.PostMessage · data.URL))
            d data.URL = none) →
        ctx.slackClient.PostMessage (w ++ pre.map (Event.PostMessage · data.URL))
          c data.URL = some e →
        SlackMessageAction.Do (some ⟨cs⟩) ctx data w
          = (.ret (some e), w ++ (pre ++ [c]).map (Event.PostMessage · data.URL))) ∧
    ((∀ p1 d p2, cs = p1 ++ d :: p2 →
          ctx.slackClient.PostMessage (w ++ p1.map (Event.PostMessage · data.URL))
            d data.URL = none) →
        SlackMessageAction.Do (some ⟨cs⟩) ctx data w
          = (.ret none, w ++ cs.map (Event.PostMessage · data.URL))) ∧
    SlackMessageAction.Do (some ⟨["ops"]⟩) ctx data w
      = (.ret (ctx.slackClient.PostMessage w "ops" data.URL),
          w ++ [Event.PostMessage "ops" data.URL]) ∧
    (∃ k, k ≤ cs.length ∧
      (SlackMessageAction.Do (some ⟨cs⟩) ctx data w).2
        = w ++ (cs.take k).map (Event.PostMessage · data.URL) ∧
      ((SlackMessageAction.Do (some ⟨cs⟩) ctx data w).1 = .ret none → k = cs.length)) := by
  refine ⟨?_, ?_, ?_, postAll_calls_initial_segment cs ctx data w⟩
  · intro pre c post e hs hpre hc
    subst hs
    simp only [SlackMessageAction.Do]
    rw [postAll_append_of_posted ctx data pre (c :: post) w hpre,
      SlackMessageAction.postAll]
    simp [hc]
  · intro hall
    simp only [SlackMessageAction.Do]
    have := postAll_append_of_posted ctx data cs [] w hall
    rw [List.append_nil] at this
    rw [this, SlackMessageAction.postAll]
  · simp only [SlackMessageAction.Do, SlackMessageAction.postAll]
    cases ctx.slackClient.PostMessage w "ops" data.URL <;> rfl

/-- C8 with channels `ops`, `dev`, `qa` where `dev` does not exist: the calls made
are those for `ops` and `dev`, and the error of the `dev` call is returned. -/
theorem SlackMessageAction_posts_until_first_failure_witness :
    SlackMessageAction.Do (some ⟨["ops", "dev", "qa"]⟩) noDevContext sampleData []
      = (.ret (some "channel_not_found"),
          [] ++ (["ops"] ++ ["dev"]).map (Event.PostMessage · sampleData.URL)) :=
  (SlackMessageAction_posts_until_first_failure ["ops", "dev", "qa"] noDevContext
      sampleData []).1 ["ops"] "dev" ["qa"] "channel_not_found" rfl
    (by
      intro p1 d p2 hs
      rcases p1 with _ | ⟨x, tl⟩
      · simp only [List.nil_append, List.cons.injEq] at hs
        obtain ⟨rfl, _⟩ := hs
        rfl
      · simp at hs)
    rfl

/-! ## C9: the Twitter leaves -/

/-- C9 fails on the code: when the identity lookup fails, the enabled retweet
leaf makes no effectful call at all and returns the error of the lookup. -/
theorem retweet_lookup_failure_no_effectful_call :
    TwitterRetweetAction.Do (some ⟨true⟩) lookupFailContext sampleData []
        = (.ret (some "lookup failed"), [Event.RetrieveSingleUserWithUserName "me"]) ∧
    ((TwitterRetweetAction.Do (some ⟨true⟩) lookupFailContext sampleData []).2.filter
        Event.isEffectful).length = 0 := by
  constructor <;> rfl

/-- C9 as amended: the enabled tweet leaf makes exactly one call, post-tweet with
`data.Text`, and returns its outcome. The enabled retweet and like leaves first
look up the identity `me`: if the lookup fails they make no further call and
return the lookup error unchanged; if it answers a user they make exactly one
more call, retweet or like of `data.ID` for that user, and return its outcome. -/
theorem twitter_leaves_enabled (ctx : Context ε) (data : SourceData) (w : World ε) :
    TwitterTweetAction.Do (some ⟨true⟩) ctx data w
      = (.ret (ctx.twitterClient.PostTweet w data.Text),
          w ++ [Event.PostTweet data.Text]) ∧
    (∀ e, ctx.twitterClient.RetrieveSingleUserWithUserName w "me" = .error e →
      TwitterRetweetAction.Do (some ⟨true⟩) ctx data w
        = (.ret (some e), w ++ [Event.RetrieveSingleUserWithUserName "me"]) ∧
      TwitterLikeAction.Do (some ⟨true⟩) ctx data w
        = (.ret (some e), w ++ [Event.RetrieveSingleUserWithUserName "me"])) ∧
    (∀ u, ctx.twitterClient.RetrieveSingleUserWithUserName w "me" = .ok ⟨some u⟩ →
      TwitterRetweetAction.Do (some ⟨true⟩) ctx data w
        = (.ret (ctx.twitterClient.PostRetweet
              (w ++ [Event.RetrieveSingleUserWithUserName "me"]) u.ID data.ID),
            w ++ [Event.RetrieveSingleUserWithUserName "me"]
              ++ [Event.PostRetweet u.ID data.ID]) ∧
      TwitterLikeAction.Do (some ⟨true⟩) ctx data w
        = (.ret (ctx.twitterClient.PostUsersLikingTweet
              (w ++ [Event.RetrieveSingleUserWithUserName "me"]) u.ID data.ID),
            w ++ [Event.RetrieveSingleUserWithUserName "me"]
              ++ [Event.PostUsersLikingTweet u.ID data.ID])) := by
  refine ⟨?_, ?_, ?_⟩
  · simp only [TwitterTweetAction.Do]
    cases ctx.twitterClient.PostTweet w data.Text <;> rfl
  · intro e he
    simp [TwitterRetweetAction.Do, TwitterLikeAction.Do, he]
  · intro u hu
    constructor
    · simp only [TwitterRetweetAction.Do, hu]
      cases ctx.twitterClient.PostRetweet
        (w ++ [Event.RetrieveSingleUserWithUserName "me"]) u.ID data.ID <;> rfl
    · simp only [TwitterLikeAction.Do, hu]
      cases ctx.twitterClient.PostUsersLikingTweet
        (w ++ [Event.RetrieveSingleUserWithUserName "me"]) u.ID data.ID <;> rfl

/-- C9 as amended, at a provider whose lookup fails and at one that answers user
`7` and rejects the like. -/
theorem twitter_leaves_enabled_witness :
    TwitterLikeAction.Do (some ⟨true⟩) lookupFailContext sampleData []
        = (.ret (some "lookup failed"),
            [] ++ [Event.RetrieveSingleUserWithUserName "me"]) ∧
    TwitterLikeAction.Do (some ⟨true⟩) rejectContext sampleData []
        = (.ret (some "like rejected"),
            [] ++ [Event.RetrieveSingleUserWithUserName "me"]
              ++ [Event.PostUsersLikingTweet "7" "42"]) :=
  ⟨((twitter_leaves_enabled lookupFailContext sampleData []).2.1
      "lookup failed" rfl).2,
   ((twitter_leaves_enabled rejectContext sampleData []).2.2 ⟨"7"⟩ rfl).2⟩

/-! ## C10: `Action.Do` never returns nil -/

theorem doActions_outcome (P : Outcome (Option ε) → Prop)
    (hnil : P (.panic .nilPointerDereference)) (ctx : Context ε) (data : SourceData)
    (actions : List (Option (IAction ε)))
    (h : ∀ a, some a ∈ actions → ∀ w,
      (a.Do ctx data w).1 = .ret none ∨ P (a.Do ctx data w).1) (w : World ε) :
    (doActions actions ctx data w).1 = .ret none ∨ P (doActions actions ctx data w).1 := by
  induction actions generalizing w with
  | nil => exact Or.inl rfl
  | cons hd tl ih =>
    cases hd with
    | none => exact Or.inr hnil
    | some a =>
      have ha := h a (List.mem_cons_self _ _) w
      have htl := ih (fun b hb => h b (List.mem_cons_of_mem _ hb))
      rw [doActions]
      rcases hdo : a.Do ctx data w with ⟨r, wa⟩
      rw [hdo] at ha
      rcases r with (_ | err) | p
      · exact htl wa
      · exact ha
      · exact ha

theorem doActions_last_stops (P : Outcome (Option ε) → Prop)
    (hnil : P (.panic .nilPointerDereference)) (ctx : Context ε) (data : SourceData)
    (actions : List (Option (IAction ε))) (last : IAction ε)
    (h : ∀ a, some a ∈ actions → ∀ w,
      (a.Do ctx data w).1 = .ret none ∨ P (a.Do ctx data w).1)
    (hlast : ∀ w, P (last.Do ctx data w).1) (w : World ε) :
    P (doActions (actions ++ [some last]) ctx data w).1 := by
  have hne : ∀ w, (last.Do ctx data w).1 ≠ .ret none →
      (doActions [some last] ctx data w).1 = (last.Do ctx data w).1 := by
    intro w hw
    rw [doActions]
    rcases hdo : last.Do ctx data w with ⟨r, wa⟩
    rw [hdo] at hw
    rcases r with (_ | err) | p
    · exact absurd rfl hw
    · rfl
    · rfl
  induction actions generalizing w with
  | nil =>
    rw [List.nil_append]
    by_cases hw : (last.Do ctx data w).1 = .ret none
    · rw [doActions]
      have hl := hlast w
      rcases hdo : last.Do ctx data w with ⟨r, wa⟩
      rw [hdo] at hw hl
      simp only at hw
      subst hw
      simp only [doActions]
      exact hl
    · rw [hne w hw]
      exact hlast w
  | cons hd tl ih =>
    cases hd with
    | none => exact hnil
    | some a =>
      have ha := h a (List.mem_cons_self _ _) w
      have htl := ih (fun b hb => h b (List.mem_cons_of_mem _ hb))
      rw [List.cons_append, doActions]
      rcases hdo : a.Do ctx data w with ⟨r, wa⟩
      rw [hdo] at ha
      rcases r with (_ | err) | p
      · exact htl wa
      · rcases ha with ha | ha
        · cases ha
        · exact ha
      · rcases ha with ha | ha
        · cases ha
        · exact ha

theorem tweet_outcome (a : Option TwitterTweetAction) (ctx : Context ε)
    (data : SourceData) (w : World ε) :
    (TwitterTweetAction.Do a ctx data w).1 = .ret none ∨
      Stops ctx (TwitterTweetAction.Do a ctx data w).1 := by
  rcases a with _ | ⟨_ | _⟩
  · exact Or.inr (Or.inr (Or.inl rfl))
  · exact Or.inl rfl
  · simp only [TwitterTweetAction.Do]
    rcases hp : ctx.twitterClient.PostTweet w data.Text with _ | e
    · exact Or.inl rfl
    · exact Or.inr (Or.inl ⟨e, rfl, w, Or.inl ⟨_, hp⟩⟩)

theorem retweet_outcome (a : Option TwitterRetweetAction) (ctx : Context ε)
    (data : SourceData) (w : World ε) :
    (TwitterRetweetAction.Do a ctx data w).1 = .ret none ∨
      Stops ctx (TwitterRetweetAction.Do a ctx data w).1 := by
  rcases a with _ | ⟨_ | _⟩
  · exact Or.inr (Or.inr (Or.inl rfl))
  · exact Or.inl rfl
  · simp only [TwitterRetweetAction.Do]
    rcases hl : ctx.twitterClient.RetrieveSingleUserWithUserName w "me" with e | ⟨_ | u⟩
    · exact Or.inr (Or.inl ⟨e, rfl, w, Or.inr (Or.inl ⟨_, hl⟩)⟩)
    · exact Or.inr (Or.inr (Or.inl rfl))
    · rcases hp : ctx.twitterClient.PostRetweet
        (w ++ [Event.RetrieveSingleUserWithUserName "me"]) u.ID data.ID with _ | e
      · simp only [Bool.not_true, Bool.false_eq_true, if_false, hp]
        exact Or.inl trivial
      · simp only [Bool.not_true, Bool.false_eq_true, if_false, hp]
        exact Or.inr (Or.inl ⟨e, rfl, _, Or.inr (Or.inr (Or.inl ⟨_, _, hp⟩))⟩)

theorem like_outcome (a : Option TwitterLikeAction) (ctx : Context ε)
    (data : SourceData) (w : World ε) :
    (TwitterLikeAction.Do a ctx data w).1 = .ret none ∨
      Stops ctx (TwitterLikeAction.Do a ctx data w).1 := by
  rcases a with _ | ⟨_ | _⟩
  · exact Or.inr (Or.inr (Or.inl rfl))
  · exact Or.inl rfl
  · simp only [TwitterLikeAction.Do]
    rcases hl : ctx.twitterClient.RetrieveSingleUserWithUserName w "me" with e | ⟨_ | u⟩
    · exact Or.inr (Or.inl ⟨e, rfl, w, Or.inr (Or.inl ⟨_, hl⟩)⟩)
    · exact Or.inr (Or.inr (Or.inl rfl))
    · rcases hp : ctx.twitterClient.PostUsersLikingTweet
        (w ++ [Event.RetrieveSingleUserWithUserName "me"]) u.ID data.ID with _ | e
      · simp only [Bool.not_true, Bool.false_eq_true, if_false, hp]
        exact Or.inl trivial
      · simp only [Bool.not_true, Bool.false_eq_true, if_false, hp]
        exact Or.inr (Or.inl ⟨e, rfl, _, Or.inr (Or.inr (Or.inr (Or.inl ⟨_, _, hp⟩)))⟩)

theorem postAll_outcome (cs : List String) (ctx : Context ε)
    (data : SourceData) (w : World ε) :
    (SlackMessageAction.postAll cs ctx data w).1 = .ret none ∨
      Stops ctx (SlackMessageAction.postAll cs ctx data w).1 := by
  induction cs generalizing w with
  | nil => exact Or.inl rfl
  | cons c tl ih =>
    rw [SlackMessageAction.postAll]
    rcases hp : ctx.slackClient.PostMessage w c data.URL with _ | e
    · exact ih _
    · exact Or.inr (Or.inl ⟨e, rfl, w, Or.inr (Or.inr (Or.inr (Or.inr ⟨_, _, hp⟩)))⟩)

theorem message_outcome (a : Option SlackMessageAction) (ctx : Context ε)
    (data : SourceData) (w : World ε) :
    (SlackMessageAction.Do a ctx data w).1 = .ret none ∨
      Stops ctx (SlackMessageAction.Do a ctx data w).1 := by
  rcases a with _ | a
  · exact Or.inr (Or.inr (Or.inl rfl))
  · exact postAll_outcome a.Channels ctx data w

theorem pin_outcome (a : Option SlackPinAction) (ctx : Context ε)
    (data : SourceData) (w : World ε) :
    (SlackPinAction.Do a ctx data w).1 = .ret none ∨
      Stops ctx (SlackPinAction.Do a ctx data w).1 := by
  rcases a with _ | ⟨_ | _⟩
  · exact Or.inr (Or.inr (Or.inl rfl))
  · exact Or.inl rfl
  · exact Or.inr (Or.inr (Or.inr rfl))

theorem TwitterAction_Do_eq (a : TwitterAction) (ctx : Context ε)
    (data : SourceData) (w : World ε) :
    TwitterAction.Do (some a) ctx data w
      = doActions [some ⟨TwitterTweetAction.Do a.Tweet⟩,
          some ⟨TwitterRetweetAction.Do a.Retweet⟩,
          some ⟨TwitterLikeAction.Do a.Like⟩] ctx data w := by
  simp only [TwitterAction.Do]
  rcases doActions [some ⟨TwitterTweetAction.Do a.Tweet⟩,
      some ⟨TwitterRetweetAction.Do a.Retweet⟩,
      some ⟨TwitterLikeAction.Do a.Like⟩] ctx data w with ⟨(_ | _) | _, _⟩ <;> rfl

theorem SlackAction_Do_eq (a : SlackAction) (ctx : Context ε)
    (data : SourceData) (w : World ε) :
    SlackAction.Do (some a) ctx data w
      = doActions [some ⟨SlackMessageAction.Do a.Message⟩,
          some ⟨SlackPinAction.Do a.Pin⟩,
          some ⟨SlackReactionAction.Do a.Reaction⟩] ctx data w := by
  simp only [SlackAction.Do]
  rcases doActions [some ⟨SlackMessageAction.Do a.Message⟩,
      some ⟨SlackPinAction.Do a.Pin⟩,
      some ⟨SlackReactionAction.Do a.Reaction⟩] ctx data w with ⟨(_ | _) | _, _⟩ <;> rfl

theorem Action_Do_eq (a : Action) (ctx : Context ε) (data : SourceData) (w : World ε) :
    Action.Do a ctx data w
      = doActions [some ⟨TwitterAction.Do a.Twitter⟩,
          some ⟨SlackAction.Do a.Slack⟩] ctx data w := by
  simp only [Action.Do]
  rcases doActions [some ⟨TwitterAction.Do a.Twitter⟩,
      some ⟨SlackAction.Do a.Slack⟩] ctx data w with ⟨(_ | _) | _, _⟩ <;> rfl

theorem TwitterAction_outcome (a : Option TwitterAction) (ctx : Context ε)
    (data : SourceData) (w : World ε) :
    (TwitterAction.Do a ctx data w).1 = .ret none ∨
      Stops ctx (TwitterAction.Do a ctx data w).1 := by
  rcases a with _ | a
  · exact Or.inr (Or.inr (Or.inl rfl))
  · rw [TwitterAction_Do_eq]
    refine doActions_outcome (Stops ctx) (Or.inr (Or.inl rfl)) ctx data _ ?_ w
    intro b hb w1
    simp only [List.mem_cons, Option.some.injEq, List.mem_singleton, List.not_mem_nil,
      or_false] at hb
    rcases hb with rfl | rfl | rfl
    · exact tweet_outcome _ ctx data w1
    · exact retweet_outcome _ ctx data w1
    · exact like_outcome _ ctx data w1

theorem SlackAction_stops (a : Option SlackAction) (ctx : Context ε)
    (data : SourceData) (w : World ε) :
    Stops ctx (SlackAction.Do a ctx data w).1 := by
  rcases a with _ | a
  · exact Or.inr (Or.inl rfl)
  · rw [SlackAction_Do_eq]
    refine doActions_last_stops (Stops ctx) (Or.inr (Or.inl rfl)) ctx data
      [some ⟨SlackMessageAction.Do a.Message⟩, some ⟨SlackPinAction.Do a.Pin⟩]
      ⟨SlackReactionAction.Do a.Reaction⟩ ?_ (fun _ => Or.inr (Or.inr rfl)) w
    intro b hb w1
    simp only [List.mem_cons, Option.some.injEq, List.mem_singleton, List.not_mem_nil,
      or_false] at hb
    rcases hb with rfl | rfl
    · exact message_outcome _ ctx data w1
    · exact pin_outcome _ ctx data w1

theorem Action_stops (a : Action) (ctx : Context ε) (data : SourceData) (w : World ε) :
    Stops ctx (Action.Do a ctx data w).1 := by
  rw [Action_Do_eq]
  refine doActions_last_stops (Stops ctx) (Or.inr (Or.inl rfl)) ctx data
    [some ⟨TwitterAction.Do a.Twitter⟩] ⟨SlackAction.Do a.Slack⟩ ?_
    (fun w1 => SlackAction_stops _ ctx data w1) w
  intro b hb w1
  simp only [List.mem_singleton, Option.some.injEq] at hb
  subst hb
  exact TwitterAction_outcome _ ctx data w1

/-- C10: whatever the action tree, the event and the provider, `Action.Do` never
returns nil: it returns a non-nil error that a provider call answered, or it
panics with a nil dereference or with `not implemented`. When the Twitter
branch, the message leaf and the pin leaf are present and return nil one after
the other, the reaction leaf is reached and the run ends in its panic. -/
theorem Action_Do_never_returns_nil (a : Action) (ctx : Context ε) (data : SourceData)
    (w : World ε) :
    (Action.Do a ctx data w).1 ≠ .ret none ∧
    ((∃ e, (Action.Do a ctx data w).1 = .ret (some e) ∧ ProviderError ctx e) ∨
      (Action.Do a ctx data w).1 = .panic .nilPointerDereference ∨
      (Action.Do a ctx data w).1 = .panic (.explicit "not implemented")) ∧
    (∀ s w1 w2 w3, a.Slack = some s →
      TwitterAction.Do a.Twitter ctx data w = (.ret none, w1) →
      SlackMessageAction.Do s.Message ctx data w1 = (.ret none, w2) →
      SlackPinAction.Do s.Pin ctx data w2 = (.ret none, w3) →
      Action.Do a ctx data w = (.panic (.explicit "not implemented"), w3)) := by
  have h := Action_stops a ctx data w
  refine ⟨?_, h, ?_⟩
  · intro hnil
    rw [hnil] at h
    rcases h with ⟨e, he, _⟩ | h | h <;> cases ‹_ = _›
  · intro s w1 w2 w3 hs ht hm hp
    rw [Action_Do_eq, hs]
    simp only [doActions, ht, SlackAction_Do_eq, hm, hp, SlackReactionAction.Do]

/-- C10 at the action tree whose nodes are all disabled: the reaction leaf is
reached and panics. -/
theorem Action_Do_never_returns_nil_witness :
    Action.Do disabledAction okContext sampleData []
      = (.panic (.explicit "not implemented"), []) :=
  (Action_Do_never_returns_nil disabledAction okContext sampleData []).2.2
    ⟨some ⟨[]⟩, some ⟨false⟩, none⟩ [] [] [] rfl rfl rfl rfl

/-! ## C4, C5: the rule loop -/

/-- C4 on the code: a rule whose condition matches and whose chain returns the
error `tweet rejected`; the loop drops the value returned by `proc.Action.Do`,
so nothing is sent on `errChan`. -/
theorem handleEvent_drops_action_error :
    Filter.Match sampleGovaluate ⟨"true"⟩ sampleData ([] : World String)
      = (.ret (true, none),
          [Event.NewEvaluableExpressionWithFunctions "true",
           Event.Evaluate "true" sampleData]) ∧
    Action.Do tweetAction rejectContext sampleData
        [Event.NewEvaluableExpressionWithFunctions "true", Event.Evaluate "true" sampleData]
      = (.ret (some "tweet rejected"),
          [Event.NewEvaluableExpressionWithFunctions "true",
           Event.Evaluate "true" sampleData, Event.PostTweet "we launch today"]) ∧
    handleEvent sampleGovaluate rejectContext [⟨⟨"true"⟩, tweetAction⟩] sampleData []
      = (.ret (),
          [Event.NewEvaluableExpressionWithFunctions "true",
           Event.Evaluate "true" sampleData, Event.PostTweet "we launch today"]) ∧
    Event.errChanSend "tweet rejected" ∉
      (handleEvent sampleGovaluate rejectContext [⟨⟨"true"⟩, tweetAction⟩]
        sampleData []).2 := by
  refine ⟨rfl, rfl, rfl, ?_⟩
  decide

theorem conds_append (w s : World ε) : conds (w ++ s) = conds w ++ conds s := by
  simp [conds, List.filterMap_append]

theorem tweet_conds (a : Option TwitterTweetAction) (ctx : Context ε)
    (data : SourceData) (w : World ε) :
    conds (TwitterTweetAction.Do a ctx data w).2 = conds w := by
  unfold TwitterTweetAction.Do
  split
  · rfl
  · split
    · rfl
    · split <;> simp [conds_append, conds, compiledCondition]

theorem retweet_conds (a : Option TwitterRetweetAction) (ctx : Context ε)
    (data : SourceData) (w : World ε) :
    conds (TwitterRetweetAction.Do a ctx data w).2 = conds w := by
  unfold TwitterRetweetAction.Do
  split
  · rfl
  · split
    · rfl
    · split
      · simp [conds_append, conds, compiledCondition]
      · split
        · simp [conds_append, conds, compiledCondition]
        · simp only []
          split <;> simp [conds_append, conds, compiledCondition]

theorem like_conds (a : Option TwitterLikeAction) (ctx : Context ε)
    (data : SourceData) (w : World ε) :
    conds (TwitterLikeAction.Do a ctx data w).2 = conds w := by
  unfold TwitterLikeAction.Do
  split
  · rfl
  · split
    · rfl
    · split
      · simp [conds_append, conds, compiledCondition]
      · split
        · simp [conds_append, conds, compiledCondition]
        · simp only []
          split <;> simp [conds_append, conds, compiledCondition]

theorem postAll_conds (cs : List String) (ctx : Context ε)
    (data : SourceData) (w : World ε) :
    conds (SlackMessageAction.postAll cs ctx data w).2 = conds w := by
  induction cs generalizing w with
  | nil => rfl
  | cons c tl ih =>
    rw [SlackMessageAction.postAll]
    rcases ctx.slackClient.PostMessage w c data.URL with _ | e
    · simp only [ih]
      simp [conds_append, conds, compiledCondition]
    · simp [conds_append, conds, compiledCondition]

theorem message_conds (a : Option SlackMessageAction) (ctx : Context ε)
    (data : SourceData) (w : World ε) :
    conds (SlackMessageAction.Do a ctx data w).2 = conds w := by
  rcases a with _ | a
  · rfl
  · exact postAll_conds a.Channels ctx data w

theorem pin_conds (a : Option SlackPinAction) (ctx : Context ε)
    (data : SourceData) (w : World ε) :
    conds (SlackPinAction.Do a ctx data w).2 = conds w := by
  rcases a with _ | ⟨_ | _⟩ <;> rfl

theorem doActions_conds (ctx : Context ε) (data : SourceData)
    (actions : List (Option (IAction ε)))
    (h : ∀ a, some a ∈ actions → ∀ w, conds (a.Do ctx data w).2 = conds w)
    (w : World ε) :
    conds (doActions actions ctx data w).2 = conds w := by
  induction actions generalizing w with
  | nil => rfl
  | cons hd tl ih =>
    cases hd with
    | none => rfl
    | some a =>
      have ha := h a (List.mem_cons_self _ _) w
      have htl := ih (fun b hb => h b (List.mem_cons_of_mem _ hb))
      rw [doActions]
      rcases hdo : a.Do ctx data w with ⟨r, wa⟩
      rw [hdo] at ha
      rcases r with (_ | err) | p
      · exact (htl wa).trans ha
      · exact ha
      · exact ha

theorem Action_conds (a : Action) (ctx : Context ε) (data : SourceData) (w : World ε) :
    conds (Action.Do a ctx data w).2 = conds w := by
  rw [Action_Do_eq]
  refine doActions_conds ctx data _ ?_ w
  intro b hb w1
  simp only [List.mem_cons, Option.some.injEq, List.mem_singleton, List.not_mem_nil,
    or_false] at hb
  rcases hb with rfl | rfl
  · rcases a.Twitter with _ | t
    · rfl
    · simp only [TwitterAction_Do_eq]
      refine doActions_conds ctx data _ ?_ w1
      intro c hc w2
      simp only [List.mem_cons, Option.some.injEq, List.mem_singleton, List.not_mem_nil,
        or_false] at hc
      rcases hc with rfl | rfl | rfl
      · exact tweet_conds _ ctx data w2
      · exact retweet_conds _ ctx data w2
      · exact like_conds _ ctx data w2
  · rcases a.Slack with _ | t
    · rfl
    · simp only [SlackAction_Do_eq]
      refine doActions_conds ctx data _ ?_ w1
      intro c hc w2
      simp only [List.mem_cons, Option.some.injEq, List.mem_singleton, List.not_mem_nil,
        or_false] at hc
      rcases hc with rfl | rfl | rfl
      · exact message_conds _ ctx data w2
      · exact pin_conds _ ctx data w2
      · rfl

theorem sendErr_conds (err : Option ε) (w : World ε) : conds (sendErr err w) = conds w := by
  cases err <;> simp [sendErr, conds_append, conds, compiledCondition]

theorem Match_conds (g : Govaluate ε χ ν) (f : Filter) (data : SourceData) (w : World ε) :
    conds (f.Match g data w).2 = conds w ++ [f.Condition] := by
  unfold Filter.Match
  split
  · simp [conds_append, conds, compiledCondition]
  · split <;> simp [conds_append, conds, compiledCondition]

theorem handleEvent_cons (g : Govaluate ε χ ν) (ctx : Context ε) (p : Process)
    (rest : List Process) (out : SourceData) (w w1 : World ε) (v : Bool) (err : Option ε)
    (hm : p.Filter.Match g out w = (.ret (v, err), w1)) :
    (v = true → ∀ r w3, p.Action.Do ctx out (sendErr err w1) = (.ret r, w3) →
      handleEvent g ctx (p :: rest) out w = handleEvent g ctx rest out w3) ∧
    (v = true → ∀ q w3, p.Action.Do ctx out (sendErr err w1) = (.panic q, w3) →
      handleEvent g ctx (p :: rest) out w = (.panic q, w3)) ∧
    (v = false →
      handleEvent g ctx (p :: rest) out w = handleEvent g ctx rest out (sendErr err w1)) := by
  refine ⟨?_, ?_, ?_⟩
  · intro hv r w3 hd
    subst hv
    rw [handleEvent, hm]
    simp only [if_true, hd]
  · intro hv q w3 hd
    subst hv
    rw [handleEvent, hm]
    simp only [if_true, hd]
  · intro hv
    subst hv
    rw [handleEvent, hm]
    simp

theorem handleEvent_append (g : Govaluate ε χ ν) (ctx : Context ε)
    (pre rest : List Process) (out : SourceData) (w : World ε) :
    (∀ q w1, handleEvent g ctx pre out w = (.panic q, w1) →
      handleEvent g ctx (pre ++ rest) out w = (.panic q, w1)) ∧
    (∀ w1, handleEvent g ctx pre out w = (.ret (), w1) →
      handleEvent g ctx (pre ++ rest) out w = handleEvent g ctx rest out w1) := by
  induction pre generalizing w with
  | nil =>
    constructor
    · intro q w1 h
      simp [handleEvent] at h
    · intro w1 h
      simp only [handleEvent, Prod.mk.injEq, true_and] at h
      subst h
      rfl
  | cons p tl ih =>
    rcases hm : p.Filter.Match g out w with ⟨(⟨v, err⟩ | q0), wm⟩
    · have hc := handleEvent_cons g ctx p tl out w wm v err hm
      have hc2 := handleEvent_cons g ctx p (tl ++ rest) out w wm v err hm
      cases v with
      | false =>
        rw [List.cons_append, hc.2.2 rfl, hc2.2.2 rfl]
        exact ih _
      | true =>
        rcases hd : p.Action.Do ctx out (sendErr err wm) with ⟨(r | q1), wd⟩
        · rw [List.cons_append, hc.1 rfl r wd hd, hc2.1 rfl r wd hd]
          exact ih _
        · rw [List.cons_append, hc.2.1 rfl q1 wd hd, hc2.2.1 rfl q1 wd hd]
          constructor
          · intro q w1 h
            exact h
          · intro w1 h
            simp at h
    · rw [List.cons_append, handleEvent, handleEvent, hm]
      constructor
      · intro q w1 h
        exact h
      · intro w1 h
        simp at h

theorem handleEvent_conds (g : Govaluate ε χ ν) (ctx : Context ε)
    (procs : List Process) (out : SourceData) (w : World ε)
    (h : (handleEvent g ctx procs out w).1 = .ret ()) :
    conds (handleEvent g ctx procs out w).2
      = conds w ++ procs.map (fun p => p.Filter.Condition) := by
  induction procs generalizing w with
  | nil => simp [handleEvent]
  | cons p tl ih =>
    rcases hm : p.Filter.Match g out w with ⟨(⟨v, err⟩ | q0), wm⟩
    · have hc := handleEvent_cons g ctx p tl out w wm v err hm
      have hmc := Match_conds g p.Filter out w
      rw [hm] at hmc
      cases v with
      | false =>
        rw [hc.2.2 rfl] at h ⊢
        rw [ih _ h, sendErr_conds, hmc]
        simp
      | true =>
        rcases hd : p.Action.Do ctx out (sendErr err wm) with ⟨(r | q1), wd⟩
        · have hac := Action_conds p.Action ctx out (sendErr err wm)
          rw [hd] at hac
          rw [hc.1 rfl r wd hd] at h ⊢
          rw [ih _ h, hac, sendErr_conds, hmc]
          simp
        · rw [hc.2.1 rfl q1 wd hd] at h
          simp at h
    · rw [handleEvent, hm] at h
      simp at h

theorem handleEvent_returns (g : Govaluate ε χ ν) (ctx : Context ε)
    (procs : List Process) (out : SourceData) (w : World ε)
    (hM : ∀ p ∈ procs, ∀ w1 q, (p.Filter.Match g out w1).1 ≠ .panic q)
    (hA : ∀ p ∈ procs, ∀ w1 err w2 q, p.Filter.Match g out w1 = (.ret (true, err), w2) →
      (p.Action.Do ctx out (sendErr err w2)).1 ≠ .panic q) :
    (handleEvent g ctx procs out w).1 = .ret () := by
  induction procs generalizing w with
  | nil => rfl
  | cons p tl ih =>
    have ihtl := fun w0 => ih w0
      (fun b hb => hM b (List.mem_cons_of_mem _ hb))
      (fun b hb => hA b (List.mem_cons_of_mem _ hb))
    rcases hm : p.Filter.Match g out w with ⟨(⟨v, err⟩ | q0), wm⟩
    · have hc := handleEvent_cons g ctx p tl out w wm v err hm
      cases v with
      | false =>
        rw [hc.2.2 rfl]
        exact ihtl _
      | true =>
        rcases hd : p.Action.Do ctx out (sendErr err wm) with ⟨(r | q1), wd⟩
        · rw [hc.1 rfl r wd hd]
          exact ihtl _
        · have := hA p (List.mem_cons_self _ _) w err wm q1 hm
          rw [hd] at this
          exact absurd rfl this
    · have := hM p (List.mem_cons_self _ _) w q0
      rw [hm] at this
      exact absurd rfl this

/-- C5: assume that no condition of the rule list panics and that no chain of a
rule whose condition matches panics when run after its match. Then the step
returns; the conditions compiled during the step are those of the configured
rules, each once and in configured order; and every rule, wherever it stands in
the list, has its condition evaluated in the world left by the rules before it,
has its chain run there when the verdict is true, whatever the chain returns,
and not run when the verdict is false, after which the loop goes on with the
rules behind it. -/
theorem handleEvent_evaluates_every_rule (g : Govaluate ε χ ν) (ctx : Context ε)
    (procs : List Process) (out : SourceData) (w : World ε)
    (hM : ∀ p ∈ procs, ∀ w1 q, (p.Filter.Match g out w1).1 ≠ .panic q)
    (hA : ∀ p ∈ procs, ∀ w1 err w2 q, p.Filter.Match g out w1 = (.ret (true, err), w2) →
      (p.Action.Do ctx out (sendErr err w2)).1 ≠ .panic q) :
    (handleEvent g ctx procs out w).1 = .ret () ∧
    conds (handleEvent g ctx procs out w).2
      = conds w ++ procs.map (fun p => p.Filter.Condition) ∧
    ∀ pre p post, procs = pre ++ p :: post →
      ∃ w1 v err w2,
        handleEvent g ctx pre out w = (.ret (), w1) ∧
        p.Filter.Match g out w1 = (.ret (v, err), w2) ∧
        (v = true → ∃ r w3,
          p.Action.Do ctx out (sendErr err w2) = (.ret r, w3) ∧
          handleEvent g ctx procs out w = handleEvent g ctx post out w3) ∧
        (v = false →
          handleEvent g ctx procs out w = handleEvent g ctx post out (sendErr err w2)) := by
  have h := handleEvent_returns g ctx procs out w hM hA
  refine ⟨h, handleEvent_conds g ctx procs out w h, ?_⟩
  intro pre p post hs
  subst hs
  have happ := handleEvent_append g ctx pre (p :: post) out w
  rcases hpre : handleEvent g ctx pre out w with ⟨(u | q), w1⟩
  · have hrest := happ.2 w1 hpre
    rw [hrest] at h
    rcases hm : p.Filter.Match g out w1 with ⟨(⟨v, err⟩ | q0), wm⟩
    · have hc := handleEvent_cons g ctx p post out w1 wm v err hm
      refine ⟨w1, v, err, wm, rfl, hm, ?_, ?_⟩
      · intro hv
        rcases hd : p.Action.Do ctx out (sendErr err wm) with ⟨(r | q1), wd⟩
        · exact ⟨r, wd, rfl, hrest.trans (hc.1 hv r wd hd)⟩
        · rw [hc.2.1 hv q1 wd hd] at h
          simp at h
      · intro hv
        exact hrest.trans (hc.2.2 hv)
    · rw [handleEvent, hm] at h
      simp at h
  · rw [happ.1 q w1 hpre] at h
    simp at h

/-- C5 at three rules on a provider that rejects every tweet: the first rule
does not match and its chain is not run, the second matches and its chain
returns an error, the third matches and its chain is run all the same. -/
theorem handleEvent_evaluates_every_rule_witness :
    handleEvent sampleGovaluate rejectContext threeRules sampleData []
      = (.ret (),
          [Event.NewEvaluableExpressionWithFunctions "false",
           Event.Evaluate "false" sampleData,
           Event.NewEvaluableExpressionWithFunctions "true",
           Event.Evaluate "true" sampleData,
           Event.PostTweet "we launch today",
           Event.NewEvaluableExpressionWithFunctions "1 == 1",
           Event.Evaluate "1 == 1" sampleData,
           Event.PostTweet "we launch today"]) ∧
    (handleEvent sampleGovaluate rejectContext threeRules sampleData []).1 = .ret () ∧
    conds (handleEvent sampleGovaluate rejectContext threeRules sampleData []).2
      = conds ([] : World String) ++ threeRules.map (fun p => p.Filter.Condition) :=
  have hM : ∀ p ∈ threeRules, ∀ (w1 : World String) q,
      (p.Filter.Match sampleGovaluate sampleData w1).1 ≠ .panic q := by
    intro p hp w1 q
    simp only [threeRules, List.mem_cons, List.mem_singleton, List.not_mem_nil,
      or_false] at hp
    rcases hp with rfl | rfl | rfl <;> intro h <;> cases h
  have hA : ∀ p ∈ threeRules, ∀ (w1 : World String) err w2 q,
      p.Filter.Match sampleGovaluate sampleData w1 = (.ret (true, err), w2) →
      (p.Action.Do rejectContext sampleData (sendErr err w2)).1 ≠ .panic q := by
    intro p hp w1 err w2 q hm
    simp only [threeRules, List.mem_cons, List.mem_singleton, List.not_mem_nil,
      or_false] at hp
    rcases hp with rfl | rfl | rfl
    · cases hm
    · intro h
      cases h
    · intro h
      cases h
  ⟨rfl,
    (handleEvent_evaluates_every_rule sampleGovaluate rejectContext threeRules
      sampleData [] hM hA).1,
    (handleEvent_evaluates_every_rule sampleGovaluate rejectContext threeRules
      sampleData [] hM hA).2.1⟩

end Theorems

end Mybot
